import Mathlib

/-
Verification of the Soluna live lexical/syntactic analysis web application.

The client (soluna-ui/src/App.tsx and its earlier revisions) is embedded
directly from the TypeScript source.  The analysis engine itself (the
FastAPI backend) is not part of the staged sources; where a property is
decided by engine code, the engine is modelled from the design document
(those definitions carry a doc comment saying so).
-/

/-! ## Client data model (soluna-ui/src/App.tsx) -/

/-- The wire-level token record received by the client
(App.tsx lines 4-11; identical in the multi-file revision lines 6-13):
`{type, value, line, col, start, end}`. -/
structure Token where
  type : String
  value : String
  line : Nat
  col : Nat
  start : Nat
  «end» : Nat
deriving Repr, DecidableEq

/-- The wire-level diagnostic record received by the client
(App.tsx lines 315-322): `{type, message, line, col, start, end}`. -/
structure LexerError where
  type : String
  message : String
  line : Nat
  col : Nat
  start : Nat
  «end» : Nat
deriving Repr, DecidableEq

/-- A parse-tree node as received by the client: a recursively nested
`{type, value?, children}` record. -/
inductive ParseNode where
  | node (type : String) (value : Option String) (children : List ParseNode)

/-- A websocket message from the engine: `{tokens?, errors?, parseTree?}`. -/
structure WsMessage where
  tokens : Option (List Token)
  errors : Option (List LexerError)
  parseTree : Option ParseNode

/-- The client's analysis display state: the `tokens`, `errors` and
`parseTree` React state variables of App.tsx. -/
structure AnalysisDisplay where
  tokens : List Token
  errors : List LexerError
  parseTree : Option ParseNode

/-- `errors.filter(e => e.type !== 'PARSER_ERROR')` (App.tsx line 691). -/
def lexerErrors (errors : List LexerError) : List LexerError :=
  errors.filter (fun e => e.type != "PARSER_ERROR")

/-- `errors.filter(e => e.type === 'PARSER_ERROR')` (App.tsx line 692). -/
def parserErrors (errors : List LexerError) : List LexerError :=
  errors.filter (fun e => e.type == "PARSER_ERROR")

/-! ## Color mapping (App.tsx lines 348-423) -/

/-- The `tokenColors` record of App.tsx lines 348-410.  A JavaScript object
lookup `tokenColors[type]` yields `undefined` on a missing key, modelled by
`Option`; every stored value is a non-empty (truthy) color string. -/
def tokenColors : String → Option String
  | "program" => some "#facc15"
  | "globaldeclarations" => some "#e4e4e7"
  | "functiondefinition" => some "#c586c0"
  | "variabledeclaration" => some "#4ec9b0"
  | "block" => some "#e4e4e7"
  | "ifstatement" => some "#c586c0"
  | "whileloop" => some "#c586c0"
  | "forloop" => some "#c586c0"
  | "returnstatement" => some "#c586c0"
  | "assignment" => some "#4ec9b0"
  | "expressionstatement" => some "#e4e4e7"
  | "identifier" => some "#9cdcfe"
  | "literal" => some "#b5cea8"
  | "if" => some "#c586c0"
  | "else" => some "#c586c0"
  | "while" => some "#c586c0"
  | "for" => some "#c586c0"
  | "return" => some "#c586c0"
  | "break" => some "#c586c0"
  | "continue" => some "#c586c0"
  | "var" => some "#569cd6"
  | "let" => some "#569cd6"
  | "const" => some "#569cd6"
  | "int" => some "#569cd6"
  | "float" => some "#569cd6"
  | "string" => some "#569cd6"
  | "char" => some "#569cd6"
  | "void" => some "#569cd6"
  | "bool" => some "#569cd6"
  | "kai_lit" => some "#b5cea8"
  | "flux_lit" => some "#b5cea8"
  | "aster_lit" => some "#b5cea8"
  | "selene_literal" => some "#ce9178"
  | "blaze_literal" => some "#ce9178"
  | "leo_label" => some "#4ec9b0"
  | "lparen" => some "#ffd700"
  | "rparen" => some "#ffd700"
  | "lbrace" => some "#ffd700"
  | "rbrace" => some "#ffd700"
  | "semi" => some "#d4d4d4"
  | "comma" => some "#d4d4d4"
  | "whitespace" => some "#ffffff"
  | "newline" => some "#ffffff"
  | "tab" => some "#ffffff"
  | "unknown" => some "#f44747"
  | "default_symbol" => some "#569cd6"
  | _ => none

/-- A character of the class `[a-z0-9_]` used by the regular expression
`/^[a-z0-9_]+$/` in `getColor`. -/
def isLowerIdentChar (c : Char) : Bool :=
  ('a' ≤ c && c ≤ 'z') || ('0' ≤ c && c ≤ '9') || c == '_'

/-- The test `/^[a-z0-9_]+$/.test(s)`: one or more characters, all in the
class `[a-z0-9_]`. -/
def regexLowerIdentTest (s : String) : Bool :=
  !s.data.isEmpty && s.data.all isLowerIdentChar

/-- `String(rawType).toLowerCase()`: character-wise lowercasing. -/
def jsToLowerCase (s : String) : String :=
  String.mk (s.data.map Char.toLower)

/-- `getColor` of App.tsx lines 413-423: the empty string is falsy and is
caught by the `if (!rawType)` guard; otherwise the lowercased type is looked
up in `tokenColors`; otherwise short types failing the `[a-z0-9_]+` regex get
`tokenColors.default_symbol`; otherwise the fixed fallback `"#d4d4d4"`. -/
def getColor (rawType : String) : String :=
  if rawType = "" then "#d4d4d4"
  else
    let ty := jsToLowerCase rawType
    match tokenColors ty with
    | some c => c
    | none =>
      if ty.length ≤ 4 && !regexLowerIdentTest ty then
        (tokenColors "default_symbol").getD "#d4d4d4"
      else "#d4d4d4"

/-- The behaviour of `getColor` in the words of the specification claim:
the color-table entry for the lowercased type when one exists, otherwise the
default-symbol color when the lowercased type has length at most 4 and
contains a character outside `[a-z0-9_]`, and otherwise `"#d4d4d4"`. -/
def getColorSpec (rawType : String) : String :=
  let ty := jsToLowerCase rawType
  match tokenColors ty with
  | some c => c
  | none =>
    if ty.length ≤ 4 && ty.data.any (fun c => !isLowerIdentChar c) then
      "#569cd6"
    else "#d4d4d4"

/-! ## Websocket message handling and the parser view (App.tsx) -/

/-- The websocket `message` listener of App.tsx lines 529-543, as a pure
state update.  A present array field is truthy in JavaScript (even when
empty) and overwrites the state; `parseTree` is overwritten when present,
cleared when absent while a non-empty `errors` array is present, and kept
otherwise. -/
def wsMessageHandler (st : AnalysisDisplay) (m : WsMessage) : AnalysisDisplay :=
  { tokens :=
      match m.tokens with
      | some ts => ts
      | none => st.tokens
    errors :=
      match m.errors with
      | some es => es
      | none => st.errors
    parseTree :=
      match m.parseTree with
      | some t => some t
      | none =>
        match m.errors with
        | some es => if es.length > 0 then none else st.parseTree
        | none => st.parseTree }

/-- What the Parser tab of App.tsx lines 884-908 renders. -/
inductive TreeTabView where
  | parserDidNotRun
  | noParserErrors
  | parserErrorList (errs : List LexerError)
deriving Repr, DecidableEq

/-- The Parser tab's conditional rendering (App.tsx lines 884-908): when any
lexical error exists the view is the fixed "Parser did not run" notice;
otherwise either the "No parser errors" notice or the list of parser
errors.  No branch renders parse output. -/
def treeTabView (errors : List LexerError) : TreeTabView :=
  if (lexerErrors errors).length > 0 then .parserDidNotRun
  else if (parserErrors errors).length = 0 then .noParserErrors
  else .parserErrorList (parserErrors errors)

/-- One row of the Symbol Table (App.tsx lines 868-877): the Row, Col,
Lexeme and Token cells plus the color of the Token cell. -/
structure TableRow where
  row : Nat
  col : Nat
  lexeme : String
  tokenType : String
  color : String
deriving Repr, DecidableEq

/-- How App.tsx lines 868-877 renders one received token as a table row. -/
def renderSymbolRow (t : Token) : TableRow :=
  { row := t.line, col := t.col, lexeme := t.value, tokenType := t.type,
    color := getColor t.type }

/-! ## Debounced analysis requests (App.tsx lines 562-578) -/

/-- JavaScript `String.prototype.trim()`: the string with leading and
trailing whitespace removed. -/
def jsTrim (s : String) : String :=
  String.mk (((s.data.dropWhile Char.isWhitespace).reverse.dropWhile
    Char.isWhitespace).reverse)

/-- The body of the timer that `triggerAnalysis` schedules (App.tsx lines
566-577): when the buffer trims to the empty string the display state is
cleared to the empty triple, and in every case the message `{code}` is sent
to the engine.  The second component lists the payloads sent. -/
def triggerAnalysisFire (code : String) (st : AnalysisDisplay) :
    AnalysisDisplay × List String :=
  if jsTrim code = "" then
    ({ tokens := [], errors := [], parseTree := none }, [code])
  else (st, [code])

/-- The debounce timer state of App.tsx: `sendTimer` holds at most one
pending timeout, and the scheduled closure captures the code it was created
with. -/
structure DebounceState where
  pending : Option String
deriving Repr, DecidableEq

/-- An event at the debounce layer: the user edits the buffer (a call to
`triggerAnalysis`), or the pending timer fires. -/
inductive ClientEvent where
  | edit (code : String)
  | timerFire
deriving Repr, DecidableEq

/-- One step of `triggerAnalysis`'s debounce protocol (App.tsx lines
562-578).  `conn` is whether the websocket is OPEN: a call while
disconnected returns before touching the timer.  A call while connected
clears any pending timeout and schedules a new one capturing `code`; a
timer that fires sends exactly its captured code.  The second component
lists payloads sent to the engine during the step. -/
def debounceStep (conn : Bool) (st : DebounceState) (ev : ClientEvent) :
    DebounceState × List String :=
  match ev with
  | .edit code => if conn then ({ pending := some code }, []) else (st, [])
  | .timerFire =>
    match st.pending with
    | some code => ({ pending := none }, [code])
    | none => (st, [])

/-- The debounce state after a burst of edits within one window (each edit
issued while the socket is OPEN and before the pending timer fires). -/
def processEdits (st : DebounceState) (codes : List String) : DebounceState :=
  codes.foldl (fun s c => (debounceStep true s (.edit c)).1) st

/-! ## Editor file management (App.tsx lines 494-670) -/

/-- An open editor file (App.tsx lines 340-344). -/
structure CodeFile where
  id : String
  name : String
  content : String
deriving Repr, DecidableEq

/-- The file-management React state: the `files` array and `activeFileId`. -/
structure EditorState where
  files : List CodeFile
  activeFileId : String
deriving Repr, DecidableEq

/-- The initial state (App.tsx lines 494-497): one file `main.sl`. -/
def initialEditorState : EditorState :=
  { files := [{ id := "1", name := "main.sl", content := "" }],
    activeFileId := "1" }

/-- `files.find(f => f.id === activeFileId) || files[0]` (App.tsx line 513).
`files[0]` on an empty array is `undefined`, modelled by `none`. -/
def activeFile (st : EditorState) : Option CodeFile :=
  match st.files.find? (fun f => f.id == st.activeFileId) with
  | some f => some f
  | none => st.files.head?

/-- `handleCloseFile` (App.tsx lines 645-659).  Closing when only one file
is open resets that file's content to the empty string; otherwise the file
is removed, and if it was active the first remaining file becomes active.
The inner `none` branch mirrors `newFiles[0]` being `undefined` (the
JavaScript would fault there); it is unreachable when file ids are
distinct. -/
def handleCloseFile (st : EditorState) (id : String) : EditorState :=
  match st.files with
  | [f] => { st with files := [{ f with content := "" }] }
  | fs =>
    let newFiles := fs.filter (fun f => f.id != id)
    if st.activeFileId = id then
      match newFiles.head? with
      | some nxt => { st with files := newFiles, activeFileId := nxt.id }
      | none => { st with files := newFiles }
    else { st with files := newFiles }

/-- `handleAddFile` (App.tsx lines 594-608) with the `Date.now()`-generated
identifier passed in as `newId`. -/
def handleAddFile (st : EditorState) (newId : String) : EditorState :=
  { st with
    files := st.files ++
      [{ id := newId, name := "script_" ++ toString st.files.length ++ ".sl",
         content := "" }],
    activeFileId := newId }

/-- `handleTabClick` (App.tsx lines 661-665): selects the clicked file. -/
def handleTabClick (st : EditorState) (id : String) : EditorState :=
  { st with activeFileId := id }

/-- `handleRename` (App.tsx lines 667-670). -/
def handleRename (st : EditorState) (id newName : String) : EditorState :=
  { st with
    files := st.files.map (fun f =>
      if f.id = id then { f with name := newName } else f) }

/-- `handleCodeChange` (App.tsx lines 586-592): updates the active file's
content. -/
def handleCodeChange (st : EditorState) (newContent : String) : EditorState :=
  { st with
    files := st.files.map (fun f =>
      if f.id = st.activeFileId then { f with content := newContent } else f) }

/-! ## Tab key handling (App.tsx lines 672-689) -/

/-- JavaScript `String.prototype.substring(a, b)`: both indices are clamped
to `[0, length]` and swapped when out of order. -/
def jsSubstring (s : String) (a b : Nat) : String :=
  let a' := min a s.length
  let b' := min b s.length
  String.mk ((s.data.drop (min a' b')).take (max a' b' - min a' b'))

/-- The Tab branch of `handleKeyDown` (App.tsx lines 672-689) as a pure
function of the buffer and the selection: the new content
`content.substring(0, start) + "    " + content.substring(end)` and the
cursor `selectionStart = selectionEnd = start + indent.length` placed by
the scheduled callback. -/
def handleKeyDownTab (content : String) (selStart selEnd : Nat) :
    String × Nat × Nat :=
  let indent := "    "
  let newContent :=
    jsSubstring content 0 selStart ++ indent ++
      jsSubstring content selEnd content.length
  (newContent, selStart + indent.length, selStart + indent.length)

/-! ## The analysis engine, modelled from the specification

The engine (the FastAPI backend's lexer and parser) is not among the staged
sources; the definitions below are modelled from the design document:
maximal-munch scanning (§4.1), recursive-descent parsing with panic-mode
recovery (§4.2), diagnostic merging (§4.3) and the `analyze` orchestration
(§4.4 and §6). -/

/-- A token kind of the engine's data model (spec §3). -/
inductive TokenKind where
  | keyword (word : String)
  | identifier
  | integerLiteral
  | floatLiteral
  | stringLiteral
  | charLiteral
  | comment
  | whitespace
  | punct (op : String)
  | unknown
deriving Repr, DecidableEq

/-- Modelled from the spec: the fixed reserved-word table of §4.1 step 2.
The exact list is product-specific (§9); the words are taken from the
keyword section of the repository's color tables. -/
def reservedWords : List String :=
  ["and", "aster", "blaze", "cos", "flux", "hubble", "iris", "ixion", "kai",
   "lani", "leo", "let", "lumen", "lumina", "luna", "mos", "not", "nova",
   "or", "orbit", "phase", "sage", "selene", "sol", "soluna", "star", "void",
   "wane", "warp", "wax", "zara", "zeru", "zeta"]

/-- Modelled from the spec: the fixed operator table of §4.1 step 5,
multi-character operators before single-character ones. -/
def operatorTable : List String :=
  ["==", "!=", "<=", ">=", "&&", "||", "->",
   "+", "-", "*", "/", "%", "=", "<", ">",
   "(", ")", "\x7b", "\x7d", "[", "]", ";", ",", ".", "!"]

/-- Whitespace characters recognised by the scanner. -/
def isWhitespaceChar (c : Char) : Bool :=
  c == ' ' || c == '\t' || c == '\n' || c == '\r'

/-- A character that may start an identifier or keyword lexeme. -/
def isIdentStart (c : Char) : Bool := c.isAlpha || c == '_'

/-- A character that may continue an identifier or keyword lexeme. -/
def isIdentChar (c : Char) : Bool := c.isAlphanum || c == '_'

/-- The single-quote character (used for character literals). -/
def singleQuote : Char := Char.ofNat 39

/-- The backslash character (the escape marker inside literals). -/
def backslashChar : Char := Char.ofNat 92

/-- A lexical diagnostic of the engine (spec §3), with the 0-based offset of
the offending lexeme. -/
structure LexDiag where
  code : String
  message : String
  pos : Nat
deriving Repr, DecidableEq

/-- Modelled from the spec (§4.1 step 4): the length of a quoted literal's
body starting right after the opening quote `q`, honouring escape pairs,
also reporting whether the closing quote was found before a newline or the
end of input.  The returned length includes the closing quote when there is
one. -/
def quotedBodyLen (q : Char) : List Char → Nat × Bool
  | [] => (0, false)
  | c :: cs =>
    if c == q then (1, true)
    else if c == '\n' then (0, false)
    else if c == backslashChar then
      match cs with
      | [] => (1, false)
      | _ :: cs2 =>
        let r := quotedBodyLen q cs2
        (r.1 + 2, r.2)
    else
      let r := quotedBodyLen q cs
      (r.1 + 1, r.2)

/-- Modelled from the spec (§4.1): one maximal-munch scan step on the
non-empty input `c :: rest` at offset `pos`.  Returns the token kind, the
number of characters consumed (with the §4.1 guarantee that every step
consumes at least one character carried in the type), and the lexical
diagnostics the step emits.  The cases follow §4.1's order: whitespace,
comments (line comments running to end of line), identifiers/keywords,
numeric literals (a trailing radix point with no digits is a malformed
float with a best-effort token), string and character literals (unterminated
ones are diagnosed and resynchronise at the line boundary), longest-match
operators, and otherwise a single-character Unknown token plus a
diagnostic. -/
def scanStep (pos : Nat) (c : Char) (rest : List Char) :
    TokenKind × { n : Nat // 1 ≤ n } × List LexDiag :=
  if hw : isWhitespaceChar c then
    (.whitespace,
     ⟨((c :: rest).takeWhile isWhitespaceChar).length, by
        simp [List.takeWhile_cons, hw]⟩, [])
  else if hc : c == '/' && rest.head? == some '/' then
    (.comment,
     ⟨((c :: rest).takeWhile (fun x => x != '\n')).length, by
        have h1 : (c != '\n') = true := by
          simp only [Bool.and_eq_true, beq_iff_eq] at hc
          simp [hc.1]
        simp [List.takeWhile_cons, h1]⟩, [])
  else if hi : isIdentStart c then
    let run := (c :: rest).takeWhile isIdentChar
    let word := String.mk run
    (if word ∈ reservedWords then .keyword word else .identifier,
     ⟨run.length, by
        have h1 : isIdentChar c = true := by
          simp only [isIdentStart, Bool.or_eq_true, beq_iff_eq] at hi
          rcases hi with h | h
          · simp [isIdentChar, Char.isAlphanum, h]
          · simp [isIdentChar, h]
        simp [run, List.takeWhile_cons, h1]⟩, [])
  else if hd : c.isDigit then
    let ip := (c :: rest).takeWhile Char.isDigit
    have hip : 1 ≤ ip.length := by simp [ip, List.takeWhile_cons, hd]
    match (c :: rest).dropWhile Char.isDigit with
    | '.' :: r2 =>
      let fp := r2.takeWhile Char.isDigit
      if fp.length = 0 then
        (.floatLiteral, ⟨ip.length + 1, by omega⟩,
         [{ code := "MALFORMED_NUMBER",
            message := "missing digits after radix point", pos := pos }])
      else
        (.floatLiteral, ⟨ip.length + 1 + fp.length, by omega⟩, [])
    | _ => (.integerLiteral, ⟨ip.length, hip⟩, [])
  else if c == '"' then
    let r := quotedBodyLen '"' rest
    (.stringLiteral, ⟨1 + r.1, by omega⟩,
     if r.2 then []
     else [{ code := "UNTERMINATED_STRING",
             message := "unterminated string literal", pos := pos }])
  else if c == singleQuote then
    let r := quotedBodyLen singleQuote rest
    (.charLiteral, ⟨1 + r.1, by omega⟩,
     if r.2 then []
     else [{ code := "UNTERMINATED_CHAR",
             message := "unterminated character literal", pos := pos }])
  else
    match hf : operatorTable.find? (fun op => op.data.isPrefixOf (c :: rest)) with
    | some op =>
      (.punct op,
       ⟨op.data.length, by
          have hm : op ∈ operatorTable := List.mem_of_find?_eq_some hf
          have hall : ∀ x ∈ operatorTable, 1 ≤ x.data.length := by decide
          exact hall op hm⟩, [])
    | none =>
      (.unknown, ⟨1, le_refl 1⟩,
       [{ code := "UNKNOWN_CHARACTER",
          message := "unknown character", pos := pos }])

/-- An engine token (spec §3): its kind, its exact lexeme, and the 0-based
offset at which it starts. -/
structure SToken where
  kind : TokenKind
  lexeme : List Char
  start : Nat
deriving Repr, DecidableEq

/-- Modelled from the spec (§4.1): the scanning loop.  Each iteration takes
one maximal-munch step, emits the token whose lexeme is exactly the
consumed prefix, and continues on the remaining characters; it terminates
because every step consumes at least one character. -/
def scanFrom : List Char → Nat → List SToken × List LexDiag
  | [], _ => ([], [])
  | c :: rest, pos =>
    let r := scanStep pos c rest
    let next := scanFrom (List.drop r.2.1.1 (c :: rest)) (pos + r.2.1.1)
    (⟨r.1, List.take r.2.1.1 (c :: rest), pos⟩ :: next.1, r.2.2 ++ next.2)
termination_by cs _ => cs.length
decreasing_by
  have h1 : 1 ≤ ((scanStep pos c rest).2.1 : Nat) := (scanStep pos c rest).2.1.2
  simp only [List.length_drop, List.length_cons]
  omega

/-- Modelled from the spec (§4.1): `tokenize(source) -> (tokens,
diagnostics)`. -/
def tokenize (s : String) : List SToken × List LexDiag :=
  scanFrom s.data 0

/-- Modelled from the spec (§4.2): whitespace and comment tokens are
filtered from the stream the parser sees. -/
def isSignificant (t : SToken) : Bool :=
  t.kind != .whitespace && t.kind != .comment

/-- Whether a token can legally start a declaration (a synchronization
point in the sense of §4.2's panic-mode recovery). -/
def isDeclStart (t : SToken) : Bool :=
  match t.kind with
  | .keyword _ => true
  | _ => false

/-- Modelled from the spec (§4.2): panic-mode resynchronisation — discard
tokens until the next statement-terminating punctuation (consumed) or the
next token that can start a new declaration (kept).  The result is never
longer than the input, which bounds the parser's recursion. -/
def dropToSync : (ts : List SToken) → { r : List SToken // r.length ≤ ts.length }
  | [] => ⟨[], by simp⟩
  | t :: rest =>
    if t.kind == .punct ";" then ⟨rest, by simp⟩
    else if isDeclStart t then ⟨t :: rest, le_refl _⟩
    else
      ⟨(dropToSync rest).1, by
        have h := (dropToSync rest).2
        simp only [List.length_cons]
        omega⟩

/-- An engine parse-tree node (spec §3), restricted to the declaration
productions the modelled grammar uses. -/
inductive ParseTree where
  | program (decls : List ParseTree)
  | varDecl (kw : String) (name : String)
deriving Repr

/-- Modelled from the spec: the backend grammar is product-specific (§9);
this models §4.2's shape on the minimal variable declaration of §8's
scenario — `Declaration := keyword identifier ';'` — with panic-mode
recovery: on a token that cannot start or continue a declaration, emit one
`PARSER_ERROR` diagnostic spanning the unexpected token and resynchronise
before resuming. -/
def parseDecls : List SToken → List ParseTree × List LexDiag
  | [] => ([], [])
  | t :: rest =>
    match t.kind, rest with
    | .keyword kw, n :: s :: rest2 =>
      if n.kind == .identifier && s.kind == .punct ";" then
        let r := parseDecls rest2
        (.varDecl kw (String.mk n.lexeme) :: r.1, r.2)
      else
        let r := parseDecls (dropToSync (n :: s :: rest2)).1
        (r.1, { code := "PARSER_ERROR",
                message := "unexpected token in declaration",
                pos := t.start } :: r.2)
    | _, r1 =>
      let r := parseDecls (dropToSync r1).1
      (r.1, { code := "PARSER_ERROR",
              message := "expected declaration",
              pos := t.start } :: r.2)
termination_by ts => ts.length
decreasing_by
  · simp only [List.length_cons]; omega
  · have h := (dropToSync (n :: s :: rest2)).2
    simp only [List.length_cons] at h ⊢; omega
  · have h := (dropToSync r1).2
    simp only [List.length_cons]; omega

/-- Modelled from the spec (§4.2): `parse(tokens) -> (tree, diagnostics)`.
The tree is `none` exactly when zero declarations could be parsed (§4.2's
result contract); otherwise the `Program` node lists the declarations that
did parse. -/
def parse (ts : List SToken) : Option ParseTree × List LexDiag :=
  let r := parseDecls (ts.filter isSignificant)
  (if r.1.isEmpty then none else some (.program r.1), r.2)

/-- Modelled from the spec (§4.3): merge the lexical and syntactic
diagnostic sequences into one list ordered by start position, lexical
before syntactic on ties. -/
def mergeDiags : List LexDiag → List LexDiag → List LexDiag
  | [], ys => ys
  | x :: xs, [] => x :: xs
  | x :: xs, y :: ys =>
    if x.pos ≤ y.pos then x :: mergeDiags xs (y :: ys)
    else y :: mergeDiags (x :: xs) ys
termination_by xs ys => xs.length + ys.length
decreasing_by
  · simp only [List.length_cons]; omega
  · simp only [List.length_cons]; omega

/-- The engine's analysis result (spec §3). -/
structure AnalysisResult where
  tokens : List SToken
  diagnostics : List LexDiag
  tree : Option ParseTree

/-- Modelled from the spec (§4.4): `analyze(source) = let (tokens, lexErrs)
= tokenize(source); let (tree, synErrs) = parse(tokens); return {tokens,
diagnostics: merge(lexErrs, synErrs), tree}`.  It is a total function: the
termination of every stage is checked by construction. -/
def analyze (s : String) : AnalysisResult :=
  let t := tokenize s
  let p := parse t.1
  { tokens := t.1, diagnostics := mergeDiags t.2 p.2, tree := p.1 }

/-! ## Serialization at the external boundary (spec §6) -/

/-- Concatenation of a list of lexemes (used to state the round-trip
property). -/
def concatAll : List (List Char) → List Char
  | [] => []
  | l :: ls => l ++ concatAll ls

/-- The 1-based line of a 0-based offset into `src`: one plus the number of
newlines before the offset (spec §3's derivation of positions). -/
def lineOf (src : List Char) (off : Nat) : Nat :=
  1 + ((src.take off).filter (fun c => c == '\n')).length

/-- The 1-based column of a 0-based offset into `src`: one plus the number
of characters after the last newline before the offset. -/
def colOf (src : List Char) (off : Nat) : Nat :=
  1 + ((src.take off).reverse.takeWhile (fun c => c != '\n')).length

/-- The wire name of a token kind. -/
def kindName : TokenKind → String
  | .keyword w => String.mk (w.data.map Char.toUpper)
  | .identifier => "ID"
  | .integerLiteral => "KAI_LIT"
  | .floatLiteral => "FLUX_LIT"
  | .stringLiteral => "SELENE_LITERAL"
  | .charLiteral => "BLAZE_LITERAL"
  | .comment => "COMMENT"
  | .whitespace => "WHITESPACE"
  | .punct op => op
  | .unknown => "UNKNOWN"

/-- Modelled from the spec (§6): each outbound `Token` is serialized as
`{type: string, value: lexeme, line, col, start, end}`, the 1-based line
and column derived from the token's start offset against the source. -/
def serializeToken (src : List Char) (t : SToken) : Token :=
  { type := kindName t.kind,
    value := String.mk t.lexeme,
    line := lineOf src t.start,
    col := colOf src t.start,
    start := t.start,
    «end» := t.start + t.lexeme.length }

/-! ## Helper lemmas -/

/-- The scan loop's emitted lexemes concatenate back to its input: each
step's token carries exactly the consumed prefix. -/
theorem scanFrom_concat (n : Nat) :
    ∀ (cs : List Char) (pos : Nat), cs.length ≤ n →
      concatAll ((scanFrom cs pos).1.map SToken.lexeme) = cs := by
  induction n with
  | zero =>
    intro cs pos h
    have : cs = [] := List.eq_nil_of_length_eq_zero (Nat.le_zero.mp h)
    subst this
    simp [scanFrom, concatAll]
  | succ n ih =>
    intro cs pos h
    match cs with
    | [] => simp [scanFrom, concatAll]
    | c :: rest =>
      rw [scanFrom]
      simp only [List.map_cons]
      rw [concatAll]
      have hlen : 1 ≤ ((scanStep pos c rest).2.1 : Nat) := (scanStep pos c rest).2.1.2
      have hdrop : (List.drop ((scanStep pos c rest).2.1 : Nat) (c :: rest)).length ≤ n := by
        simp only [List.length_drop, List.length_cons]
        simp only [List.length_cons] at h
        omega
      rw [ih _ _ hdrop]
      exact List.take_append_drop _ _

/-- Every token the scan loop emits has a non-empty lexeme. -/
theorem scanFrom_lexeme_ne_nil (n : Nat) :
    ∀ (cs : List Char) (pos : Nat), cs.length ≤ n →
      ∀ t ∈ (scanFrom cs pos).1, t.lexeme ≠ [] := by
  induction n with
  | zero =>
    intro cs pos h
    have : cs = [] := List.eq_nil_of_length_eq_zero (Nat.le_zero.mp h)
    subst this
    simp [scanFrom]
  | succ n ih =>
    intro cs pos h t ht
    match cs with
    | [] => simp [scanFrom] at ht
    | c :: rest =>
      rw [scanFrom] at ht
      simp only [List.mem_cons] at ht
      rcases ht with ht | ht
      · subst ht
        have hlen : 1 ≤ ((scanStep pos c rest).2.1 : Nat) := (scanStep pos c rest).2.1.2
        match hn : ((scanStep pos c rest).2.1 : Nat) with
        | 0 => omega
        | m + 1 => simp [List.take_succ_cons]
      · have hlen : 1 ≤ ((scanStep pos c rest).2.1 : Nat) := (scanStep pos c rest).2.1.2
        have hdrop : (List.drop ((scanStep pos c rest).2.1 : Nat) (c :: rest)).length ≤ n := by
          simp only [List.length_drop, List.length_cons]
          simp only [List.length_cons] at h
          omega
        exact ih _ _ hdrop t ht

/-- A concatenation of non-empty lists is at least as long as the list of
its pieces. -/
theorem length_le_concatAll :
    ∀ (ls : List (List Char)), (∀ l ∈ ls, l ≠ []) →
      ls.length ≤ (concatAll ls).length := by
  intro ls
  induction ls with
  | nil => intro _; simp [concatAll]
  | cons l ls ih =>
    intro h
    have hl : l ≠ [] := h l (List.mem_cons_self l ls)
    have hl1 : 1 ≤ l.length := List.length_pos.mpr hl
    have := ih (fun x hx => h x (List.mem_cons_of_mem l hx))
    simp only [concatAll, List.length_cons, List.length_append]
    omega

/-! ## Claim theorems -/

/-- C5: for every input source text, concatenating the `value` (lexeme) of
every token in the returned token list, in order and including whitespace
and comment tokens, reproduces the original source text exactly. -/
theorem claim5_token_round_trip (s : String) :
    String.mk (concatAll ((tokenize s).1.map SToken.lexeme)) = s := by
  have h := scanFrom_concat s.data.length s.data 0 (le_refl _)
  simp only [tokenize]
  rw [h]

/-- C6: for every finite input text, `analyze` terminates (it is a total
function whose recursions are all checked to consume input) and returns a
well-formed result: the token list reproduces the input exactly, contains
at most one token per input character, and every token has a non-empty
lexeme.  This holds in particular for empty input, whitespace-only input,
and input of only unknown characters. -/
theorem claim6_analyze_total (s : String) :
    concatAll ((analyze s).tokens.map SToken.lexeme) = s.data ∧
    (analyze s).tokens.length ≤ s.data.length ∧
    (analyze s).tokens.all (fun t => !t.lexeme.isEmpty) = true := by
  have htok : (analyze s).tokens = (scanFrom s.data 0).1 := rfl
  have hconcat := scanFrom_concat s.data.length s.data 0 (le_refl _)
  have hne := scanFrom_lexeme_ne_nil s.data.length s.data 0 (le_refl _)
  refine ⟨by rw [htok]; exact hconcat, ?_, ?_⟩
  · have hle := length_le_concatAll ((scanFrom s.data 0).1.map SToken.lexeme)
      (by intro l hl
          simp only [List.mem_map] at hl
          obtain ⟨t, ht, rfl⟩ := hl
          exact hne t ht)
    rw [hconcat] at hle
    simpa [htok] using hle
  · rw [htok]
    simp only [List.all_eq_true]
    intro t ht
    simp [List.isEmpty_iff, hne t ht]

/-- C4: every Token crossing the external boundary is serialized with
exactly the fields `{type, value, line, col, start, end}` — a wire token is
fully determined by those six fields — and every token received by the
client carries its 1-based line and column (both at least 1) in addition to
its offsets, and the client's symbol table displays exactly that line and
column for the token. -/
theorem claim4_token_serialization (src : List Char) (t : SToken) :
    (∀ w : Token, w = ⟨w.type, w.value, w.line, w.col, w.start, w.«end»⟩) ∧
    serializeToken src t =
      { type := kindName t.kind, value := String.mk t.lexeme,
        line := lineOf src t.start, col := colOf src t.start,
        start := t.start, «end» := t.start + t.lexeme.length } ∧
    1 ≤ (serializeToken src t).line ∧
    1 ≤ (serializeToken src t).col ∧
    (renderSymbolRow (serializeToken src t)).row = lineOf src t.start ∧
    (renderSymbolRow (serializeToken src t)).col = colOf src t.start := by
  refine ⟨fun w => rfl, rfl, ?_, ?_, rfl, rfl⟩
  · simp [serializeToken, lineOf]
  · simp [serializeToken, colOf]

/-- C3: a diagnostic is in `parserErrors` (syntactic) exactly when its
`type` is `"PARSER_ERROR"`, and in `lexerErrors` (lexical) exactly when its
`type` is anything else; the two filters therefore partition the outbound
`errors` array with no diagnostic in both or in neither. -/
theorem claim3_error_partition (errors : List LexerError) (e : LexerError) :
    (e ∈ parserErrors errors ↔ e ∈ errors ∧ e.type = "PARSER_ERROR") ∧
    (e ∈ lexerErrors errors ↔ e ∈ errors ∧ e.type ≠ "PARSER_ERROR") := by
  constructor
  · simp [parserErrors, List.mem_filter]
  · simp [lexerErrors, List.mem_filter]

/-- C10: `getColor` is a total function of the token-type string agreeing
everywhere with the claimed behaviour: the color-table entry for the
lowercased type when one exists, otherwise the default-symbol color
`"#569cd6"` when the lowercased type has length at most 4 and contains a
character outside `[a-z0-9_]`, and otherwise the fallback `"#d4d4d4"` — in
particular it never fails on an unknown or empty type. -/
theorem claim10_getColor_total (rawType : String) :
    getColor rawType = getColorSpec rawType := by
  by_cases hr : rawType = ""
  · subst hr
    rfl
  · have hdata : rawType.data ≠ [] := by
      intro hd
      exact hr (by cases rawType with | mk l => simp at hd; simp [hd])
    simp only [getColor, getColorSpec, if_neg hr]
    cases htc : tokenColors (jsToLowerCase rawType) with
    | some c => rfl
    | none =>
      have hmap : (jsToLowerCase rawType).data = rawType.data.map Char.toLower := rfl
      have hne : (jsToLowerCase rawType).data ≠ [] := by
        rw [hmap]
        simpa using hdata
      have hcond : (!regexLowerIdentTest (jsToLowerCase rawType)) =
          (jsToLowerCase rawType).data.any (fun c => !isLowerIdentChar c) := by
        rw [regexLowerIdentTest]
        rw [List.isEmpty_eq_false_iff_exists_mem.mpr
          (by cases h : (jsToLowerCase rawType).data with
              | nil => exact absurd h hne
              | cons a l => exact ⟨a, by simp [h]⟩)]
        rw [List.all_eq_not_any_not]
        simp
      rw [hcond]
      have hds : (tokenColors "default_symbol").getD "#d4d4d4" = "#569cd6" := rfl
      rw [hds]

/-- C1 counterexample: on the empty buffer the debounced callback still
sends the message `{code: ""}` to the engine — the send in
`triggerAnalysis` (App.tsx line 573) is unconditional — so the claim that
"the engine is not run on that input" fails at the concrete input `""`. -/
theorem claim1_counterexample :
    (triggerAnalysisFire "" { tokens := [], errors := [], parseTree := none }).2 ≠ [] := by
  intro h
  simp [triggerAnalysisFire] at h

/-- C1 (amended): for every buffer that trims to the empty string, the
debounced callback resets the client display to the empty-state triple (no
tokens, no diagnostics, no tree), but the analysis request is nevertheless
still sent to the engine, as the single message carrying that buffer. -/
theorem claim1_empty_input_clears (code : String) (st : AnalysisDisplay)
    (h : jsTrim code = "") :
    triggerAnalysisFire code st =
      ({ tokens := [], errors := [], parseTree := none }, [code]) := by
  simp [triggerAnalysisFire, h]

/-- C1 witness: the amended behaviour at the concrete input `""` from a
display state holding stale data. -/
theorem claim1_empty_input_clears_witness :
    jsTrim "" = "" ∧
    triggerAnalysisFire ""
        { tokens := [{ type := "ID", value := "x", line := 1, col := 1,
                       start := 0, «end» := 1 }],
          errors := [{ type := "UNKNOWN_CHARACTER", message := "stale",
                       line := 1, col := 1, start := 0, «end» := 1 }],
          parseTree := some (.node "Program" none []) } =
      ({ tokens := [], errors := [], parseTree := none }, [""]) :=
  ⟨rfl, claim1_empty_input_clears "" _ rfl⟩

/-- C2: whenever at least one lexical diagnostic (type not `"PARSER_ERROR"`)
exists for the input, the Parser tab renders the "Parser did not run"
notice — no parse output — while a parse tree present in the engine's
message is still stored in the client's state, so the collaborator holds
the best-effort tree and decides not to show it. -/
theorem claim2_parser_view_withheld (st : AnalysisDisplay) (m : WsMessage)
    (errs : List LexerError) (h1 : m.errors = some errs)
    (h2 : ∃ e ∈ errs, e.type ≠ "PARSER_ERROR") :
    treeTabView errs = .parserDidNotRun ∧
    (∀ t, m.parseTree = some t → (wsMessageHandler st m).parseTree = some t) := by
  constructor
  · obtain ⟨e, he, hty⟩ := h2
    have hmem : e ∈ lexerErrors errs := by
      simp only [lexerErrors, List.mem_filter, bne_iff_ne, ne_eq]
      exact ⟨he, hty⟩
    have hpos : 0 < (lexerErrors errs).length :=
      List.length_pos.mpr (List.ne_nil_of_mem hmem)
    simp [treeTabView, hpos]
  · intro t ht
    simp [wsMessageHandler, ht]

/-- C2 witness: a message carrying one lexical error and a tree; the Parser
tab shows the "Parser did not run" notice and the tree is retained. -/
theorem claim2_parser_view_withheld_witness :
    (some [({ type := "UNKNOWN_CHARACTER", message := "unknown character",
              line := 1, col := 1, start := 0, «end» := 1 } : LexerError)] =
       some [{ type := "UNKNOWN_CHARACTER", message := "unknown character",
               line := 1, col := 1, start := 0, «end» := 1 }]) ∧
    (treeTabView [{ type := "UNKNOWN_CHARACTER", message := "unknown character",
                    line := 1, col := 1, start := 0, «end» := 1 }] =
        .parserDidNotRun ∧
     (∀ t, (WsMessage.mk none
              (some [{ type := "UNKNOWN_CHARACTER", message := "unknown character",
                       line := 1, col := 1, start := 0, «end» := 1 }])
              (some (.node "Program" none []))).parseTree = some t →
        (wsMessageHandler { tokens := [], errors := [], parseTree := none }
            (WsMessage.mk none
              (some [{ type := "UNKNOWN_CHARACTER", message := "unknown character",
                       line := 1, col := 1, start := 0, «end» := 1 }])
              (some (.node "Program" none [])))).parseTree = some t)) :=
  ⟨rfl,
   claim2_parser_view_withheld
     { tokens := [], errors := [], parseTree := none }
     (WsMessage.mk none
       (some [{ type := "UNKNOWN_CHARACTER", message := "unknown character",
                line := 1, col := 1, start := 0, «end» := 1 }])
       (some (.node "Program" none [])))
     [{ type := "UNKNOWN_CHARACTER", message := "unknown character",
        line := 1, col := 1, start := 0, «end» := 1 }]
     rfl
     ⟨{ type := "UNKNOWN_CHARACTER", message := "unknown character",
        line := 1, col := 1, start := 0, «end» := 1 },
      by simp, by simp⟩⟩

/-- After a burst of edits on an open socket, the pending timer holds
exactly the code of the last edit. -/
theorem processEdits_pending (codes : List String) :
    ∀ (st : DebounceState) (h : codes ≠ []),
      (processEdits st codes).pending = some (codes.getLast h) := by
  induction codes with
  | nil => intro st h; exact absurd rfl h
  | cons c cs ih =>
    intro st h
    cases cs with
    | nil => simp [processEdits, debounceStep]
    | cons c2 cs2 =>
      have hne : c2 :: cs2 ≠ [] := List.cons_ne_nil _ _
      have hstep : processEdits st (c :: c2 :: cs2) =
          processEdits (debounceStep true st (.edit c)).1 (c2 :: cs2) := by
        simp [processEdits]
      rw [hstep, ih _ hne, List.getLast_cons hne]

/-- C7: within one debounce window on an open connection, issuing an edit
never sends anything (it only cancels the pending timer and re-arms it with
the new code), after any non-empty burst of edits the pending timer holds
exactly the final edit's code, and when that timer fires the engine
receives exactly one request carrying that code — so no superseded input is
ever delivered. -/
theorem claim7_debounce_delivers_last (st : DebounceState)
    (codes : List String) (h : codes ≠ []) :
    (∀ (s : DebounceState) (c : String), (debounceStep true s (.edit c)).2 = []) ∧
    (processEdits st codes).pending = some (codes.getLast h) ∧
    (debounceStep true (processEdits st codes) .timerFire).2 =
      [codes.getLast h] := by
  refine ⟨fun s c => by simp [debounceStep], processEdits_pending codes st h, ?_⟩
  rw [debounceStep]
  rw [processEdits_pending codes st h]

/-- C7 witness: two edits in one window; only the second edit's code is
delivered, once. -/
theorem claim7_debounce_delivers_last_witness :
    (["luna a;", "luna ab;"] : List String) ≠ [] ∧
    (processEdits { pending := none } ["luna a;", "luna ab;"]).pending =
      some "luna ab;" ∧
    (debounceStep true (processEdits { pending := none } ["luna a;", "luna ab;"])
        .timerFire).2 = ["luna ab;"] := by
  have h := claim7_debounce_delivers_last { pending := none }
    ["luna a;", "luna ab;"] (by simp)
  exact ⟨by simp, h.2.1, h.2.2⟩

/-- When the file ids are distinct and at least two files are open, removing
one id leaves a non-empty list. -/
theorem filter_ne_id_ne_nil (fs : List CodeFile) (id : String)
    (hnd : (fs.map CodeFile.id).Nodup) (hlen : 2 ≤ fs.length) :
    fs.filter (fun f => f.id != id) ≠ [] := by
  match fs with
  | [] => simp at hlen
  | f :: rest =>
    by_cases hf : f.id = id
    · have hrest : rest.filter (fun f => f.id != id) = rest := by
        rw [List.filter_eq_self]
        intro g hg
        have hid : g.id ∈ rest.map CodeFile.id := List.mem_map_of_mem _ hg
        have hnotin : f.id ∉ rest.map CodeFile.id := by
          simp only [List.map_cons, List.nodup_cons] at hnd
          exact hnd.1
        have : g.id ≠ id := by
          intro he
          exact hnotin (by rw [hf, ← he]; exact hid)
        simpa using this
      have hfilter : (f :: rest).filter (fun f => f.id != id) =
          rest.filter (fun f => f.id != id) := by
        rw [List.filter_cons_of_neg]
        simp [hf]
      rw [hfilter, hrest]
      intro hnil
      rw [hnil] at hlen
      simp at hlen
    · have hfilter : (f :: rest).filter (fun f => f.id != id) =
          f :: rest.filter (fun f => f.id != id) := by
        rw [List.filter_cons_of_pos]
        simp [hf]
      rw [hfilter]
      exact List.cons_ne_nil _ _

/-- Closing a file never empties the open-file list. -/
theorem handleCloseFile_files_ne_nil (st : EditorState) (id : String)
    (h1 : st.files ≠ []) (h2 : (st.files.map CodeFile.id).Nodup) :
    (handleCloseFile st id).files ≠ [] := by
  rcases hfs : st.files with _ | ⟨a, _ | ⟨b, l⟩⟩
  · exact absurd hfs h1
  · simp [handleCloseFile, hfs]
  · rw [hfs] at h2
    have hnf : (a :: b :: l).filter (fun f => f.id != id) ≠ [] :=
      filter_ne_id_ne_nil _ id h2 (by simp)
    by_cases hact : st.activeFileId = id
    · cases hh : ((a :: b :: l).filter (fun f => f.id != id)).head? with
      | none => exact absurd (List.head?_eq_none_iff.mp hh) hnf
      | some nxt => simpa [handleCloseFile, hfs, hact, hh] using hnf
    · simpa [handleCloseFile, hfs, hact] using hnf

/-- Closing the only open file resets its content instead of removing it. -/
theorem handleCloseFile_single (st : EditorState) (id : String) (f : CodeFile)
    (hf : st.files = [f]) :
    (handleCloseFile st id).files = [{ f with content := "" }] := by
  simp [handleCloseFile, hf]

/-- Closing the active file while other files remain makes the first
remaining file active. -/
theorem handleCloseFile_active (st : EditorState) (id : String)
    (h2 : (st.files.map CodeFile.id).Nodup) (hact : st.activeFileId = id)
    (hlen : 2 ≤ st.files.length) :
    (st.files.filter (fun f => f.id != id)).head?.map CodeFile.id =
      some (handleCloseFile st id).activeFileId := by
  rcases hfs : st.files with _ | ⟨a, _ | ⟨b, l⟩⟩
  · rw [hfs] at hlen; simp at hlen
  · rw [hfs] at hlen; simp at hlen
  · rw [hfs] at h2
    have hnf : (a :: b :: l).filter (fun f => f.id != id) ≠ [] :=
      filter_ne_id_ne_nil _ id h2 (by simp)
    cases hh : ((a :: b :: l).filter (fun f => f.id != id)).head? with
    | none => exact absurd (List.head?_eq_none_iff.mp hh) hnf
    | some nxt => simp [handleCloseFile, hfs, hact, hh]

/-- The active-file lookup always yields a member of the open-file list. -/
theorem activeFile_mem (st : EditorState) (h1 : st.files ≠ []) :
    ∃ f, activeFile st = some f ∧ f ∈ st.files := by
  cases hfind : st.files.find? (fun f => f.id == st.activeFileId) with
  | some f =>
    exact ⟨f, by simp [activeFile, hfind], List.mem_of_find?_eq_some hfind⟩
  | none =>
    cases hfs : st.files with
    | nil => exact absurd hfs h1
    | cons a rest =>
      rw [hfs] at hfind
      refine ⟨a, ?_, List.mem_cons_self a rest⟩
      simp [activeFile, hfs, hfind]

/-- C8: the editor's open-file list never empties and there is always a
valid active file: every file operation preserves non-emptiness (closing
the last file resets its content to `""` instead of removing it), closing
the active file when others remain selects the first remaining file, the
active-file lookup always returns a member of the list, and it falls back
to the first file when the active id is not found. -/
theorem claim8_editor_invariants (st : EditorState)
    (id newId newName content : String)
    (h1 : st.files ≠ []) (h2 : (st.files.map CodeFile.id).Nodup) :
    (handleCloseFile st id).files ≠ [] ∧
    (handleAddFile st newId).files ≠ [] ∧
    (handleTabClick st id).files ≠ [] ∧
    (handleRename st id newName).files ≠ [] ∧
    (handleCodeChange st content).files ≠ [] ∧
    (∃ f, activeFile st = some f ∧ f ∈ st.files) ∧
    (∀ f, st.files = [f] →
       (handleCloseFile st id).files = [{ f with content := "" }]) ∧
    (st.activeFileId = id → 2 ≤ st.files.length →
       (st.files.filter (fun f => f.id != id)).head?.map CodeFile.id =
         some (handleCloseFile st id).activeFileId) ∧
    (st.files.find? (fun f => f.id == st.activeFileId) = none →
       activeFile st = st.files.head?) := by
  refine ⟨handleCloseFile_files_ne_nil st id h1 h2, ?_, ?_, ?_, ?_,
    activeFile_mem st h1, fun f hf => handleCloseFile_single st id f hf,
    fun hact hlen => handleCloseFile_active st id h2 hact hlen, ?_⟩
  · simp [handleAddFile]
  · simpa [handleTabClick] using h1
  · simp only [handleRename, ne_eq, List.map_eq_nil_iff]
    exact h1
  · simp only [handleCodeChange, ne_eq, List.map_eq_nil_iff]
    exact h1
  · intro hfind
    simp [activeFile, hfind]

/-- C8 witness: a two-file state with distinct ids; closing the active
second file keeps the list non-empty. -/
theorem claim8_editor_invariants_witness :
    (({ files := [{ id := "1", name := "main.sl", content := "luna x;" },
                  { id := "2", name := "script_1.sl", content := "" }],
        activeFileId := "2" } : EditorState).files ≠ [] ∧
     (([{ id := "1", name := "main.sl", content := "luna x;" },
        { id := "2", name := "script_1.sl", content := "" }] :
          List CodeFile).map CodeFile.id).Nodup) ∧
    (handleCloseFile
        { files := [{ id := "1", name := "main.sl", content := "luna x;" },
                    { id := "2", name := "script_1.sl", content := "" }],
          activeFileId := "2" } "2").files ≠ [] :=
  ⟨⟨by simp, by simp⟩,
   (claim8_editor_invariants
      { files := [{ id := "1", name := "main.sl", content := "luna x;" },
                  { id := "2", name := "script_1.sl", content := "" }],
        activeFileId := "2" } "2" "3" "renamed.sl" "luna y;"
      (by simp) (by simp)).1⟩

/-- C9: pressing Tab replaces the selected range with exactly four spaces —
the new buffer is `content[0, selectionStart) ++ "    " ++
content[selectionEnd, length)` — and places the cursor at
`selectionStart + 4` with an empty selection. -/
theorem claim9_tab_inserts_indent (content : String) (selStart selEnd : Nat)
    (h1 : selStart ≤ selEnd) (h2 : selEnd ≤ content.length) :
    (handleKeyDownTab content selStart selEnd).1.data =
      content.data.take selStart ++ "    ".data ++ content.data.drop selEnd ∧
    (handleKeyDownTab content selStart selEnd).2.1 = selStart + 4 ∧
    (handleKeyDownTab content selStart selEnd).2.2 = selStart + 4 := by
  have hs : selStart ≤ content.length := le_trans h1 h2
  have hA : (jsSubstring content 0 selStart).data = content.data.take selStart := by
    simp [jsSubstring, Nat.min_eq_left hs]
  have hB : (jsSubstring content selEnd content.length).data =
      content.data.drop selEnd := by
    have hmin : min selEnd content.length = selEnd := Nat.min_eq_left h2
    have hmax : max selEnd content.length = content.length := Nat.max_eq_right h2
    have hlen : (content.data.drop selEnd).length ≤
        content.length - selEnd := by
      rw [List.length_drop]
      exact le_refl _
    simp only [jsSubstring, Nat.min_self, hmin, hmax]
    exact List.take_of_length_le hlen
  refine ⟨?_, rfl, rfl⟩
  show (jsSubstring content 0 selStart ++ "    " ++
      jsSubstring content selEnd content.length).data = _
  rw [String.data_append, String.data_append, hA, hB]

/-- C9 witness: Tab with the selection `[2, 4)` in `"luna x;"`. -/
theorem claim9_tab_inserts_indent_witness :
    (2 ≤ 4 ∧ 4 ≤ ("luna x;" : String).length) ∧
    ((handleKeyDownTab "luna x;" 2 4).1.data =
       ("luna x;" : String).data.take 2 ++ "    ".data ++
         ("luna x;" : String).data.drop 4 ∧
     (handleKeyDownTab "luna x;" 2 4).2.1 = 2 + 4 ∧
     (handleKeyDownTab "luna x;" 2 4).2.2 = 2 + 4) :=
  ⟨⟨by decide, by decide⟩,
   claim9_tab_inserts_indent "luna x;" 2 4 (by decide) (by decide)⟩
